import Mathlib

/-!
# Verification of the EffinTrak analytics dashboard (`src/app.py`)

A shallow embedding of the dashboard script.  An expense record carries a
timestamp, a monetary amount, a category label and a payee label; the script
fetches all records of one user, normalizes them (drops the sentinel
category "Home"), filters them by an inclusive date range plus optional
category/payee selections, and derives a number of aggregation views from
the filtered table.

Timestamps are modelled as integers (an ordered timeline, seconds since the
epoch); monetary amounts as integers.  Pandas boolean-mask filtering is
`List.filter`, `groupby(...)['amount'].sum()` is a map over the sorted
distinct keys pairing each key with the sum of the matching rows' amounts,
`sort_values` is a stable insertion sort, and `nlargest` is the descending
stable sort followed by `take`.
-/

/-- One expense record (one document of the MongoDB collection, after
`pd.to_datetime` has parsed the `date` field). -/
structure Expense where
  date : Int
  amount : Int
  categoryName : String
  paidTo : String
deriving DecidableEq, Repr

/-- Insert `x` into `l` in front of the first element `y` with `le x y`;
stable insertion step of the sort. -/
def insertLe {α : Type} (le : α → α → Bool) (x : α) : List α → List α
  | [] => [x]
  | y :: ys => if le x y then x :: y :: ys else y :: insertLe le x ys

/-- Stable insertion sort by the boolean relation `le` (`x` comes before `y`
when `le x y`); models pandas `sort_values` / the sorted `groupby` index. -/
def sortLe {α : Type} (le : α → α → Bool) : List α → List α
  | [] => []
  | x :: xs => insertLe le x (sortLe le xs)

/-- Comparison used for string (category / payee) group keys. -/
def strLe (a b : String) : Bool := decide (a ≤ b)

/-- `df['amount'].sum()` over a list of rows. -/
def sumAmount (l : List Expense) : Int := (l.map (·.amount)).sum

/-- Post-fetch normalization of `get_data` (app.py line 48): drop every
record whose `categoryName` is the sentinel `"Home"`.
(The preceding steps of `get_data` — the Mongo query, the empty-result
check and the `to_datetime` parse — are modelled by taking the already
parsed row list as input.) -/
def get_data (raw : List Expense) : List Expense :=
  raw.filter (fun r => r.categoryName != "Home")

/-- The filter of app.py lines 73-78: keep the rows whose `date` lies in the
inclusive range `[lo, hi]`, whose category is in `categories` when that
selection is non-empty (a Python empty list is falsy, so the conditional
expression degenerates to `True`), and likewise for `payees`. -/
def dfFiltered (df : List Expense) (lo hi : Int)
    (categories payees : List String) : List Expense :=
  df.filter (fun r =>
    decide (lo ≤ r.date) && decide (r.date ≤ hi) &&
    (if categories.isEmpty then true else categories.contains r.categoryName) &&
    (if payees.isEmpty then true else payees.contains r.paidTo))

-- ### Grouping (pandas `groupby(key)['amount'].sum()`)

/-- The index of a pandas `groupby` by key `f`: the distinct key values,
in sorted order. -/
def keysOf {κ : Type} [DecidableEq κ] (le : κ → κ → Bool) (f : Expense → κ)
    (l : List Expense) : List κ :=
  sortLe le (l.map f).dedup

/-- `l.groupby(f)['amount'].sum()`: each distinct key of `f`, in sorted
order, paired with the sum of the amounts of the rows having that key. -/
def groupSum {κ : Type} [DecidableEq κ] (le : κ → κ → Bool) (f : Expense → κ)
    (l : List Expense) : List (κ × Int) :=
  (keysOf le f l).map (fun k => (k, sumAmount (l.filter (fun r => decide (f r = k)))))

/-- `category_totals` (app.py line 135):
`df_filtered.groupby('categoryName')['amount'].sum().sort_values(ascending=False)`. -/
def category_totals (l : List Expense) : List (String × Int) :=
  sortLe (fun a b => decide (b.2 ≤ a.2)) (groupSum strLe (·.categoryName) l)

/-- `daily_expenses` (app.py line 121):
`df_filtered.groupby('date')['amount'].sum()`, indexed by the sorted
distinct dates. -/
def daily_expenses (l : List Expense) : List (Int × Int) :=
  groupSum (fun a b => decide (a ≤ b)) (·.date) l

/-- Running cumulative sums (`.cumsum()`) starting from `acc`. -/
def cumsumFrom (acc : Int) : List Int → List Int
  | [] => []
  | x :: xs => (acc + x) :: cumsumFrom (acc + x) xs

/-- `cumulative_expenses` (app.py lines 126-127): the daily series is
re-sorted by date (`sort_values('date')`) and its `cumsum` is taken; we keep
the resulting column of cumulative amounts. -/
def cumulative_expenses (l : List Expense) : List Int :=
  cumsumFrom 0 ((sortLe (fun a b => decide (a.1 ≤ b.1)) (daily_expenses l)).map (·.2))

/-- `top_expenses` (app.py line 189): `df_filtered.nlargest(top_n, 'amount')`
— the rows sorted by amount descending (stably), truncated to `top_n`. -/
def top_expenses (l : List Expense) (n : Nat) : List Expense :=
  (sortLe (fun a b => decide (b.amount ≤ a.amount)) l).take n

/-- `top_payees` (app.py line 195):
`df_filtered.groupby('paidTo')['amount'].sum().sort_values(ascending=False).head(10)`. -/
def top_payees (l : List Expense) : List (String × Int) :=
  (sortLe (fun a b => decide (b.2 ≤ a.2)) (groupSum strLe (·.paidTo) l)).take 10

-- ### Period comparison (app.py lines 174-180)

/-- `.dt.date`: truncate a timestamp to its calendar day. -/
def dayOf (t : Int) : Int := Int.fdiv t 86400

/-- `df_period1` / `df_period2` (app.py lines 174-175): rows of the
*unfiltered* table whose calendar day lies in the inclusive interval. -/
def df_period (df : List Expense) (lo hi : Int) : List Expense :=
  df.filter (fun r => decide (lo ≤ dayOf r.date) && decide (dayOf r.date ≤ hi))

/-- `comparison` (app.py lines 177-180): building a `DataFrame` from the two
per-period category-sum series aligns them on the union of their indices (an
outer join on category); a category absent from one period gets a missing
value (`None`) in that column. -/
def comparison (df : List Expense) (p1lo p1hi p2lo p2hi : Int) :
    List (String × Option Int × Option Int) :=
  let g1 := groupSum strLe (·.categoryName) (df_period df p1lo p1hi)
  let g2 := groupSum strLe (·.categoryName) (df_period df p2lo p2hi)
  let idx := sortLe strLe ((g1.map (·.1)) ++ (g2.map (·.1))).dedup
  idx.map (fun c => (c, g1.lookup c, g2.lookup c))

-- ### Calendar helpers for the temporal views

/-- Civil (proleptic Gregorian) year and month of a timestamp, via the
standard days-from-civil inversion; models `.dt.to_period('M')`. -/
def monthOf (t : Int) : Int × Int :=
  let z := dayOf t + 719468
  let era := Int.fdiv z 146097
  let doe := z - era * 146097
  let yoe := Int.fdiv (doe - Int.fdiv doe 1460 + Int.fdiv doe 36524 - Int.fdiv doe 146096) 365
  let y := yoe + era * 400
  let doy := doe - (365 * yoe + Int.fdiv yoe 4 - Int.fdiv yoe 100)
  let mp := Int.fdiv (5 * doy + 2) 153
  let m := mp + (if mp < 10 then 3 else -9)
  (y + (if m ≤ 2 then 1 else 0), m)

/-- `.dt.day_name()`: weekday name of a timestamp (day 0, 1970-01-01, was a
Thursday). -/
def dayNameOf (t : Int) : String :=
  ["Sunday", "Monday", "Tuesday", "Wednesday", "Thursday",
   "Friday", "Saturday"].getD ((dayOf t + 4).emod 7).toNat "Unknown"

/-- Lexicographic order on the `(month, category)` group keys of the
monthly view. -/
def monthCatLe (a b : (Int × Int) × String) : Bool :=
  decide (a.1.1 < b.1.1) ||
    (decide (a.1.1 = b.1.1) &&
      (decide (a.1.2 < b.1.2) || (decide (a.1.2 = b.1.2) && strLe a.2 b.2)))

-- ### The mutable `df_filtered` frame and the two temporal views

/-- The `df_filtered` DataFrame as the script sees it: its rows plus the two
derived columns that lines 154 and 161 assign in place (absent until the
corresponding view runs). -/
structure DashTable where
  rows : List Expense
  monthCol : Option (List (Int × Int))
  dayOfWeekCol : Option (List String)
deriving DecidableEq, Repr

/-- The filtered frame as it is first produced: no derived columns yet. -/
def initTable (l : List Expense) : DashTable := ⟨l, none, none⟩

/-- `monthly_expenses` data: group by `(month, categoryName)` and sum
`amount` (the `unstack()` pivot only reshapes these numbers). -/
def groupMonthCat (rows : List Expense) : List ((Int × Int) × String × Int) :=
  (keysOf monthCatLe (fun r => (monthOf r.date, r.categoryName)) rows).map
    (fun k => (k.1, k.2,
      sumAmount (rows.filter (fun r => decide ((monthOf r.date, r.categoryName) = k)))))

/-- The monthly-trends view (app.py lines 154-155): assigns the `month`
column **in place** on `df_filtered`, then groups by month and category.
Returns the updated frame together with the view's data. -/
def monthly_view (t : DashTable) : DashTable × List ((Int × Int) × String × Int) :=
  let t2 := { t with monthCol := some (t.rows.map (fun r => monthOf r.date)) }
  (t2, groupMonthCat t2.rows)

/-- Fixed Monday-to-Sunday reindexing order of the day-of-week view. -/
def weekdays : List String :=
  ["Monday", "Tuesday", "Wednesday", "Thursday", "Friday", "Saturday", "Sunday"]

/-- Mean amount over the rows falling on weekday `d`; `none` when no row
does (a reindexed-in missing weekday). -/
def meanWhere (rows : List Expense) (d : String) : Option Rat :=
  let g := rows.filter (fun r => dayNameOf r.date == d)
  if g.isEmpty then none else some ((sumAmount g : Rat) / (g.length : Rat))

/-- The day-of-week view (app.py lines 161-162): assigns the `day_of_week`
column **in place** on `df_filtered`, then takes the mean amount per weekday
name, reindexed to Monday..Sunday. -/
def dow_view (t : DashTable) : DashTable × List (String × Option Rat) :=
  let t2 := { t with dayOfWeekCol := some (t.rows.map (fun r => dayNameOf r.date)) }
  (t2, weekdays.map (fun d => (d, meanWhere t2.rows d)))

-- ### Budget tracker (app.py lines 85-89)

/-- The budget tracker: `st.number_input(min_value=0.0)` keeps
`budget_amount ≥ 0`, and the whole block runs only under
`if budget_amount > 0`.  Returns `(capped progress, progress, spent)` —
the progress bar caps the ratio at 100 while the text reports it uncapped —
or `none` when the guard fails (nothing is rendered). -/
def budget_view (dfF : List Expense) (budget_category : String)
    (budget_amount : Rat) : Option (Rat × Rat × Int) :=
  if 0 < budget_amount then
    let category_spent := sumAmount (dfF.filter (fun r => r.categoryName == budget_category))
    let budget_progress := (category_spent : Rat) / budget_amount * 100
    some (min budget_progress 100, budget_progress, category_spent)
  else none

-- ### CSV export (app.py lines 92-96)

/-- One serialized row of `df.to_csv()`. -/
def csvLine (r : Expense) : String :=
  toString r.date ++ "," ++ toString r.amount ++ "," ++ r.categoryName ++ "," ++ r.paidTo

/-- `convert_df` (app.py lines 92-94): serialize exactly the rows of the
frame it is given, one CSV line per row. -/
def convert_df (l : List Expense) : List String := l.map csvLine

-- ### Identity resolution (app.py lines 9-20)

/-- Outcome of the `user_id` extraction and validation block. -/
inductive Resolution where
  | errNoUser : Resolution
  | errInvalidFormat : Resolution
  | ok : String → Resolution
deriving DecidableEq, Repr

/-- A character of a hexadecimal `ObjectId` string. -/
def isHexDigit (c : Char) : Bool :=
  c.isDigit || (('a' ≤ c && c ≤ 'f') || ('A' ≤ c && c ≤ 'F'))

/-- `bson.ObjectId` accepts a string exactly when it is 24 hexadecimal
characters. -/
def isValidObjectId (s : String) : Bool :=
  s.length == 24 && s.data.all isHexDigit

/-- app.py lines 9-20.  When the query parameter is absent,
`query_params.get("user_id", [None])` returns the default `[None]`, which is
*truthy*, so the `if not user_id` guard does not fire; `ObjectId([None])`
then raises and the `except` branch reports "Invalid user ID format."  An
empty-string value is falsy and hits the "No user ID provided" branch; any
other non-ObjectId value raises inside `ObjectId(...)`. -/
def resolve_user_id (param : Option String) : Resolution :=
  match param with
  | none => Resolution.errInvalidFormat
  | some s =>
    if s.isEmpty then Resolution.errNoUser
    else if isValidObjectId s then Resolution.ok s
    else Resolution.errInvalidFormat

/-- Result of one run of the script: either `st.error(msg)` followed by
`st.stop()` before any data fetch, or a page rendered from fetched data. -/
inductive PageResult where
  | errorHalt : String → PageResult
  | rendered : List Expense → PageResult
deriving DecidableEq, Repr

/-- The script's prologue: validate the user id, and only on success fetch
the user's documents and normalize them (`get_data`). -/
def run_app (param : Option String) (fetch : String → List Expense) : PageResult :=
  match resolve_user_id param with
  | Resolution.errNoUser =>
    PageResult.errorHalt "No user ID provided. Please access this dashboard through the main application."
  | Resolution.errInvalidFormat => PageResult.errorHalt "Invalid user ID format."
  | Resolution.ok oid => PageResult.rendered (get_data (fetch oid))

-- ### Concrete tables used by witnesses and counterexamples

/-- A small concrete expense table (all amounts non-negative). -/
def ex1 : List Expense :=
  [⟨0, 30, "Food", "CafeA"⟩, ⟨86400, 12, "Transport", "Metro"⟩,
   ⟨172800, 7, "Food", "CafeB"⟩]

/-- Two rows in distinct categories, used to refute the subset-monotonicity
reading that allows narrowing a selection to the empty set. -/
def exC6 : List Expense := [⟨1, 5, "A", "x"⟩, ⟨2, 7, "B", "y"⟩]

/-- The concrete filtered frame (no derived columns yet) built from `ex1`. -/
def exDash : DashTable := initTable ex1

/-- The second selection adds a constraint relative to the first: either the
first was empty (unconstrained), or the second is a *non-empty* subset of
the first.  (Narrowing to the empty set is excluded: an empty selection
means "no constraint" and widens the filter again.) -/
def addsConstraint (S1 S2 : List String) : Prop :=
  S1 = [] ∨ (S2 ≠ [] ∧ S2 ⊆ S1)

-- ### Basic facts about the insertion sort

theorem insertLe_perm {α : Type} (le : α → α → Bool) (x : α) (l : List α) :
    List.Perm (insertLe le x l) (x :: l) := by
  induction l with
  | nil => exact List.Perm.refl _
  | cons y ys ih =>
    by_cases h : le x y
    · simp [insertLe, h]
    · simp only [insertLe, h, if_neg, Bool.not_eq_true]
      exact (List.Perm.cons y ih).trans (List.Perm.swap x y ys)

theorem sortLe_perm {α : Type} (le : α → α → Bool) (l : List α) :
    List.Perm (sortLe le l) l := by
  induction l with
  | nil => exact List.Perm.refl _
  | cons x xs ih =>
    exact (insertLe_perm le x (sortLe le xs)).trans (List.Perm.cons x ih)

theorem mem_sortLe {α : Type} (le : α → α → Bool) (l : List α) (a : α) :
    a ∈ sortLe le l ↔ a ∈ l :=
  (sortLe_perm le l).mem_iff

theorem mem_insertLe {α : Type} (le : α → α → Bool) (x : α) (l : List α) (a : α) :
    a ∈ insertLe le x l ↔ a = x ∨ a ∈ l := by
  rw [(insertLe_perm le x l).mem_iff, List.mem_cons]

theorem insertLe_pairwise {α : Type} (le : α → α → Bool)
    (htot : ∀ a b, le a b = true ∨ le b a = true)
    (htrans : ∀ a b c, le a b = true → le b c = true → le a c = true)
    (x : α) (l : List α) (h : l.Pairwise (fun a b => le a b = true)) :
    (insertLe le x l).Pairwise (fun a b => le a b = true) := by
  induction l with
  | nil => simp [insertLe]
  | cons y ys ih =>
    rcases List.pairwise_cons.mp h with ⟨hy, hys⟩
    by_cases hxy : le x y
    · simp only [insertLe, hxy, if_pos]
      refine List.pairwise_cons.mpr ⟨?_, h⟩
      intro b hb
      rcases List.mem_cons.mp hb with rfl | hb
      · exact hxy
      · exact htrans x y b hxy (hy b hb)
    · simp only [insertLe, hxy, if_neg, Bool.not_eq_true]
      refine List.pairwise_cons.mpr ⟨?_, ih hys⟩
      intro b hb
      rcases (mem_insertLe le x ys b).mp hb with rfl | hb
      · rcases htot b y with hby | hyb
        · exact absurd hby (by simpa using hxy)
        · exact hyb
      · exact hy b hb

theorem sortLe_pairwise {α : Type} (le : α → α → Bool)
    (htot : ∀ a b, le a b = true ∨ le b a = true)
    (htrans : ∀ a b c, le a b = true → le b c = true → le a c = true)
    (l : List α) :
    (sortLe le l).Pairwise (fun a b => le a b = true) := by
  induction l with
  | nil => simp [sortLe]
  | cons x xs ih => exact insertLe_pairwise le htot htrans x (sortLe le xs) ih

-- ### Sums over group fibers

theorem sum_map_ite_zero {κ : Type} [DecidableEq κ] (k0 : κ) (a : Int)
    (ks : List κ) (h : k0 ∉ ks) :
    (ks.map (fun k => if k0 = k then a else 0)).sum = 0 := by
  induction ks with
  | nil => rfl
  | cons k ks ih =>
    simp only [List.mem_cons, not_or] at h
    simp [if_neg h.1, ih h.2]

theorem sum_map_ite_single {κ : Type} [DecidableEq κ] (k0 : κ) (a : Int)
    (ks : List κ) (hnd : ks.Nodup) (hm : k0 ∈ ks) :
    (ks.map (fun k => if k0 = k then a else 0)).sum = a := by
  induction ks with
  | nil => cases hm
  | cons k ks ih =>
    rcases List.mem_cons.mp hm with rfl | hm'
    · have hout : k0 ∉ ks := (List.nodup_cons.mp hnd).1
      simp [sum_map_ite_zero k0 a ks hout]
    · have hk : k0 ≠ k := by
        rintro rfl; exact (List.nodup_cons.mp hnd).1 hm'
      simp [if_neg hk, ih (List.nodup_cons.mp hnd).2 hm']

theorem sum_fiber {κ : Type} [DecidableEq κ] (f : Expense → κ)
    (l : List Expense) (ks : List κ) (hnd : ks.Nodup)
    (hk : ∀ r ∈ l, f r ∈ ks) :
    (ks.map (fun k => sumAmount (l.filter (fun r => decide (f r = k))))).sum
      = sumAmount l := by
  induction l with
  | nil => simp [sumAmount]
  | cons r rs ih =>
    have hstep : ∀ k : κ,
        sumAmount ((r :: rs).filter (fun x => decide (f x = k)))
          = (if f r = k then r.amount else 0)
            + sumAmount (rs.filter (fun x => decide (f x = k))) := by
      intro k
      by_cases h : f r = k
      · simp [List.filter_cons, h, sumAmount]
      · simp [List.filter_cons, h, sumAmount]
    have hrs : ∀ x ∈ rs, f x ∈ ks := fun x hx => hk x (List.mem_cons_of_mem r hx)
    calc (ks.map (fun k => sumAmount ((r :: rs).filter (fun x => decide (f x = k))))).sum
        = (ks.map (fun k => (if f r = k then r.amount else 0)
            + sumAmount (rs.filter (fun x => decide (f x = k))))).sum := by
          simp only [hstep]
      _ = (ks.map (fun k => if f r = k then r.amount else 0)).sum
            + (ks.map (fun k => sumAmount (rs.filter (fun x => decide (f x = k))))).sum :=
          List.sum_map_add
      _ = r.amount + sumAmount rs := by
          rw [sum_map_ite_single (f r) r.amount ks hnd (hk r (List.mem_cons_self r rs)),
            ih hrs]
      _ = sumAmount (r :: rs) := by simp [sumAmount]

theorem keysOf_nodup {κ : Type} [DecidableEq κ] (le : κ → κ → Bool)
    (f : Expense → κ) (l : List Expense) : (keysOf le f l).Nodup :=
  (sortLe_perm le (l.map f).dedup).nodup_iff.mpr (List.nodup_dedup _)

theorem mem_keysOf {κ : Type} [DecidableEq κ] (le : κ → κ → Bool)
    (f : Expense → κ) (l : List Expense) (c : κ) :
    c ∈ keysOf le f l ↔ ∃ r ∈ l, f r = c := by
  rw [keysOf, mem_sortLe, List.mem_dedup, List.mem_map]

theorem keysOf_complete {κ : Type} [DecidableEq κ] (le : κ → κ → Bool)
    (f : Expense → κ) (l : List Expense) :
    ∀ r ∈ l, f r ∈ keysOf le f l :=
  fun r hr => (mem_keysOf le f l (f r)).mpr ⟨r, hr, rfl⟩

theorem groupSum_snd_sum {κ : Type} [DecidableEq κ] (le : κ → κ → Bool)
    (f : Expense → κ) (l : List Expense) :
    ((groupSum le f l).map (·.2)).sum = sumAmount l := by
  rw [groupSum, List.map_map]
  exact sum_fiber f l (keysOf le f l) (keysOf_nodup le f l) (keysOf_complete le f l)

theorem mem_groupSum_fst {κ : Type} [DecidableEq κ] {le : κ → κ → Bool}
    {f : Expense → κ} {l : List Expense} {e : κ × Int}
    (he : e ∈ groupSum le f l) : ∃ r ∈ l, f r = e.1 := by
  rw [groupSum] at he
  rcases List.mem_map.mp he with ⟨k, hk, rfl⟩
  exact (mem_keysOf le f l k).mp hk

-- ### The filter predicate

theorem select_iff (C : List String) (s : String) :
    ((if C.isEmpty then true else C.contains s) = true) ↔ (C ≠ [] → s ∈ C) := by
  cases C with
  | nil => simp
  | cons c cs => simp

/-- **C1.**  The filtered table contains a row exactly when the row is in
the normalized table, its date lies in the inclusive range `[lo, hi]`, its
category is in the selected category set whenever that set is non-empty
(no category constraint when it is empty), and its payee is in the selected
payee set whenever that set is non-empty (no payee constraint when it is
empty). -/
theorem dfFiltered_mem (df : List Expense) (lo hi : Int)
    (C P : List String) (r : Expense) :
    r ∈ dfFiltered df lo hi C P ↔
      r ∈ df ∧ lo ≤ r.date ∧ r.date ≤ hi ∧
        (C ≠ [] → r.categoryName ∈ C) ∧ (P ≠ [] → r.paidTo ∈ P) := by
  rw [dfFiltered, List.mem_filter]
  simp only [Bool.and_eq_true, decide_eq_true_eq, select_iff, and_assoc]

-- ### Cumulative sums

theorem cumsumFrom_chain (l : List Int) :
    ∀ acc : Int, (∀ x ∈ l, 0 ≤ x) →
      List.Chain (· ≤ ·) acc (cumsumFrom acc l) := by
  induction l with
  | nil => intro acc _; exact List.Chain.nil
  | cons x xs ih =>
    intro acc h
    refine List.Chain.cons ?_ (ih (acc + x) ?_)
    · have hx := h x (List.mem_cons_self x xs)
      omega
    · intro y hy
      exact h y (List.mem_cons_of_mem x hy)

theorem cumsumFrom_getLastD (l : List Int) :
    ∀ acc : Int, (cumsumFrom acc l).getLastD acc = acc + l.sum := by
  induction l with
  | nil => intro acc; simp [cumsumFrom]
  | cons x xs ih =>
    intro acc
    rw [cumsumFrom, List.getLastD_cons, ih (acc + x), List.sum_cons]
    omega

theorem sumAmount_nonneg (l : List Expense) (h : ∀ r ∈ l, 0 ≤ r.amount) :
    0 ≤ sumAmount l := by
  refine List.sum_nonneg ?_
  intro x hx
  rcases List.mem_map.mp hx with ⟨r, hr, rfl⟩
  exact h r hr

/-- **C3.**  The per-category totals of the category-breakdown view sum to
the overview "Total Expenses" metric of the same filtered table. -/
theorem category_totals_sum (df : List Expense) (lo hi : Int)
    (C P : List String) :
    ((category_totals (dfFiltered df lo hi C P)).map (·.2)).sum
      = sumAmount (dfFiltered df lo hi C P) := by
  rw [category_totals,
    ((sortLe_perm (fun a b => decide (b.2 ≤ a.2))
      (groupSum strLe (·.categoryName) (dfFiltered df lo hi C P))).map (·.2)).sum_eq,
    groupSum_snd_sum]

/-- **C5.**  When every amount of the filtered table is non-negative, the
cumulative time series is non-decreasing; and its final value equals the
sum of the daily series, which is the total amount of the filtered table. -/
theorem cumulative_expenses_spec (l : List Expense) :
    ((∀ r ∈ l, 0 ≤ r.amount) → List.Chain' (· ≤ ·) (cumulative_expenses l)) ∧
    (cumulative_expenses l).getLastD 0 = ((daily_expenses l).map (·.2)).sum ∧
    ((daily_expenses l).map (·.2)).sum = sumAmount l := by
  refine ⟨?_, ?_, ?_⟩
  · intro h
    have hpos : ∀ x ∈ (sortLe (fun a b => decide (a.1 ≤ b.1))
        (daily_expenses l)).map (·.2), 0 ≤ x := by
      intro x hx
      rcases List.mem_map.mp hx with ⟨p, hp, rfl⟩
      have hp' : p ∈ daily_expenses l :=
        (mem_sortLe (fun a b => decide (a.1 ≤ b.1)) (daily_expenses l) p).mp hp
      rw [daily_expenses, groupSum] at hp'
      rcases List.mem_map.mp hp' with ⟨k, _, rfl⟩
      refine sumAmount_nonneg _ ?_
      intro r hr
      exact h r (List.mem_filter.mp hr).1
    have hchain : List.Chain' (· ≤ ·)
        (0 :: cumsumFrom 0 ((sortLe (fun a b => decide (a.1 ≤ b.1))
          (daily_expenses l)).map (·.2))) :=
      cumsumFrom_chain _ 0 hpos
    exact hchain.tail
  · rw [cumulative_expenses, cumsumFrom_getLastD,
      ((sortLe_perm (fun a b => decide (a.1 ≤ b.1)) (daily_expenses l)).map (·.2)).sum_eq,
      zero_add]
  · rw [daily_expenses]
    exact groupSum_snd_sum _ _ _

/-- Witness for `cumulative_expenses_spec` at the concrete table `ex1`
(whose amounts are all non-negative). -/
theorem cumulative_expenses_spec_witness :
    List.Chain' (· ≤ ·) (cumulative_expenses ex1) ∧
    (cumulative_expenses ex1).getLastD 0 = sumAmount ex1 :=
  ⟨(cumulative_expenses_spec ex1).1 (by decide),
   ((cumulative_expenses_spec ex1).2.1).trans ((cumulative_expenses_spec ex1).2.2)⟩

-- ### Top-N expenses

/-- **C4.**  For `N` in `[5, 20]`, the Top-N view has exactly
`min N (row count)` rows, is sorted descending by amount, and consists of
the rows with the largest amounts: the remaining rows (`rest`) complete it
to a permutation of the filtered table and every one of them has an amount
no larger than any selected row. -/
theorem top_expenses_spec (l : List Expense) (n : Nat)
    (h5 : 5 ≤ n) (h20 : n ≤ 20) :
    (top_expenses l n).length = min n l.length ∧
    List.Sorted (fun a b : Expense => b.amount ≤ a.amount) (top_expenses l n) ∧
    ∃ rest : List Expense,
      List.Perm (top_expenses l n ++ rest) l ∧
      ∀ x ∈ top_expenses l n, ∀ y ∈ rest, y.amount ≤ x.amount := by
  have hperm := sortLe_perm (fun a b : Expense => decide (b.amount ≤ a.amount)) l
  have hpw : (sortLe (fun a b : Expense => decide (b.amount ≤ a.amount)) l).Pairwise
      (fun a b : Expense => b.amount ≤ a.amount) := by
    refine (sortLe_pairwise _ ?_ ?_ l).imp ?_
    · intro a b
      rcases le_total b.amount a.amount with h | h
      · left; simpa using h
      · right; simpa using h
    · intro a b c hab hbc
      simp only [decide_eq_true_eq] at hab hbc ⊢
      exact le_trans hbc hab
    · intro a b h
      simpa using h
  refine ⟨?_, ?_, List.drop n (sortLe (fun a b : Expense => decide (b.amount ≤ a.amount)) l),
    ?_, ?_⟩
  · rw [top_expenses, List.length_take, hperm.length_eq]
  · exact List.Pairwise.sublist (List.take_sublist n _) hpw
  · rw [top_expenses, List.take_append_drop]
    exact hperm
  · intro x hx y hy
    have hsplit : (List.take n (sortLe (fun a b : Expense => decide (b.amount ≤ a.amount)) l)
        ++ List.drop n (sortLe (fun a b : Expense => decide (b.amount ≤ a.amount)) l)).Pairwise
        (fun a b : Expense => b.amount ≤ a.amount) := by
      rw [List.take_append_drop]; exact hpw
    exact (List.pairwise_append.mp hsplit).2.2 x hx y hy

/-- Witness for `top_expenses_spec` at the concrete table `ex1`, `N = 5`. -/
theorem top_expenses_spec_witness :
    (top_expenses ex1 5).length = min 5 ex1.length ∧
    List.Sorted (fun a b : Expense => b.amount ≤ a.amount) (top_expenses ex1 5) ∧
    ∃ rest : List Expense,
      List.Perm (top_expenses ex1 5 ++ rest) ex1 ∧
      ∀ x ∈ top_expenses ex1 5, ∀ y ∈ rest, y.amount ≤ x.amount :=
  top_expenses_spec ex1 5 (by decide) (by decide)

-- ### Monotonicity of the filter under added constraints

theorem select_mono (S1 S2 : List String) (h : addsConstraint S1 S2) (s : String)
    (hs : (if S2.isEmpty then true else S2.contains s) = true) :
    (if S1.isEmpty then true else S1.contains s) = true := by
  rcases h with rfl | ⟨hne, hsub⟩
  · simp
  · by_cases h1 : S1.isEmpty = true
    · simp [h1]
    · have h2 : ¬(S2.isEmpty = true) := fun hemp => hne (List.isEmpty_iff.mp hemp)
      rw [if_neg h2] at hs
      have hmem : s ∈ S2 := by simpa using hs
      rw [if_neg h1]
      simpa using hsub hmem

/-- **C6 (amended).**  With the same date range, if each of the category and
payee selections of the second filter adds a constraint relative to the
first — it replaces an empty (unconstrained) selection, or narrows a
selection to a **non-empty** subset — then the second filtered row count is
at most the first.  (Narrowing to the empty subset is excluded: the empty
selection means "no constraint".) -/
theorem dfFiltered_count_monotone (df : List Expense) (lo hi : Int)
    (C1 P1 C2 P2 : List String)
    (hC : addsConstraint C1 C2) (hP : addsConstraint P1 P2) :
    (dfFiltered df lo hi C2 P2).length ≤ (dfFiltered df lo hi C1 P1).length := by
  refine List.Sublist.length_le (List.monotone_filter_right df ?_)
  intro r hr
  simp only [Bool.and_eq_true] at hr ⊢
  obtain ⟨⟨⟨hd1, hd2⟩, hc⟩, hp⟩ := hr
  exact ⟨⟨⟨hd1, hd2⟩, select_mono C1 C2 hC r.categoryName hc⟩,
    select_mono P1 P2 hP r.paidTo hp⟩

/-- Witness for `dfFiltered_count_monotone`: adding the category constraint
`["A"]` to an unconstrained selection on the concrete table `exC6`. -/
theorem dfFiltered_count_monotone_witness :
    (dfFiltered exC6 0 10 ["A"] []).length ≤ (dfFiltered exC6 0 10 [] []).length :=
  dfFiltered_count_monotone exC6 0 10 [] [] ["A"] [] (Or.inl rfl) (Or.inl rfl)

/-- Counterexample to **C6 as stated**: the empty set is a subset of
`["A"]`, yet narrowing the category selection from `["A"]` to `[]` (with the
date range fixed) *increases* the filtered row count on `exC6`, because an
empty selection removes the category constraint entirely. -/
theorem dfFiltered_count_monotone_cex :
    ([] : List String) ⊆ ["A"] ∧
    (dfFiltered exC6 0 10 ["A"] []).length < (dfFiltered exC6 0 10 [] []).length :=
  ⟨List.nil_subset _, by decide⟩

-- ### The period-comparison outer join

theorem groupSum_keys {κ : Type} [DecidableEq κ] (le : κ → κ → Bool)
    (f : Expense → κ) (l : List Expense) :
    (groupSum le f l).map (·.1) = keysOf le f l := by
  rw [groupSum, List.map_map]
  exact List.map_id' _

theorem lookup_map_key {κ β : Type} [BEq κ] [LawfulBEq κ] [DecidableEq κ]
    (g : κ → β) (ks : List κ) (c : κ) :
    (ks.map (fun k => (k, g k))).lookup c = if c ∈ ks then some (g c) else none := by
  induction ks with
  | nil => simp [List.lookup]
  | cons k ks ih =>
    by_cases h : c = k
    · subst h
      simp [List.lookup]
    · have hbeq : (c == k) = false := beq_eq_false_iff_ne.mpr h
      simp [List.lookup, hbeq, ih, List.mem_cons, h]

theorem mem_comparison_iff (df : List Expense) (p1lo p1hi p2lo p2hi : Int)
    (c : String) (v1 v2 : Option Int) :
    (c, v1, v2) ∈ comparison df p1lo p1hi p2lo p2hi ↔
      (c ∈ keysOf strLe (·.categoryName) (df_period df p1lo p1hi) ∨
       c ∈ keysOf strLe (·.categoryName) (df_period df p2lo p2hi)) ∧
      v1 = (groupSum strLe (·.categoryName) (df_period df p1lo p1hi)).lookup c ∧
      v2 = (groupSum strLe (·.categoryName) (df_period df p2lo p2hi)).lookup c := by
  simp only [comparison, List.mem_map, mem_sortLe, List.mem_dedup, List.mem_append,
    groupSum_keys, Prod.mk.injEq]
  constructor
  · rintro ⟨a, ha, rfl, rfl, rfl⟩
    exact ⟨ha, rfl, rfl⟩
  · rintro ⟨h, rfl, rfl⟩
    exact ⟨c, h, rfl, rfl, rfl⟩

/-- **C7.**  The period comparison is computed from the *unfiltered*
normalized table: a row `(c, v1, v2)` appears in it exactly when category
`c` occurs in at least one of the two period sub-tables of `df`, the first
column is the sum of `amount` over the period-1 rows of `df` in category `c`
when such rows exist and a missing value (`none`) otherwise, and
symmetrically for the second column — an outer join on category. -/
theorem comparison_spec (df : List Expense) (p1lo p1hi p2lo p2hi : Int)
    (c : String) (v1 v2 : Option Int) :
    (c, v1, v2) ∈ comparison df p1lo p1hi p2lo p2hi ↔
      ((∃ r ∈ df_period df p1lo p1hi, r.categoryName = c) ∨
       (∃ r ∈ df_period df p2lo p2hi, r.categoryName = c)) ∧
      v1 = (if ∃ r ∈ df_period df p1lo p1hi, r.categoryName = c
            then some (sumAmount ((df_period df p1lo p1hi).filter
              (fun r => decide (r.categoryName = c))))
            else none) ∧
      v2 = (if ∃ r ∈ df_period df p2lo p2hi, r.categoryName = c
            then some (sumAmount ((df_period df p2lo p2hi).filter
              (fun r => decide (r.categoryName = c))))
            else none) := by
  have hlk1 : (groupSum strLe (·.categoryName) (df_period df p1lo p1hi)).lookup c
      = if c ∈ keysOf strLe (·.categoryName) (df_period df p1lo p1hi)
        then some (sumAmount ((df_period df p1lo p1hi).filter
          (fun r => decide (r.categoryName = c))))
        else none := by
    rw [groupSum]; exact lookup_map_key _ _ c
  have hlk2 : (groupSum strLe (·.categoryName) (df_period df p2lo p2hi)).lookup c
      = if c ∈ keysOf strLe (·.categoryName) (df_period df p2lo p2hi)
        then some (sumAmount ((df_period df p2lo p2hi).filter
          (fun r => decide (r.categoryName = c))))
        else none := by
    rw [groupSum]; exact lookup_map_key _ _ c
  rw [mem_comparison_iff, hlk1, hlk2,
    if_congr (mem_keysOf strLe (·.categoryName) (df_period df p1lo p1hi) c) rfl rfl,
    if_congr (mem_keysOf strLe (·.categoryName) (df_period df p2lo p2hi) c) rfl rfl,
    or_congr (mem_keysOf strLe (·.categoryName) (df_period df p1lo p1hi) c)
      (mem_keysOf strLe (·.categoryName) (df_period df p2lo p2hi) c)]

-- ### The "Home" sentinel never reaches a derived view

/-- **C2.**  Normalization drops every record with category `"Home"`, and no
derived view — the filtered table, the category breakdown, the Top-N view,
the monthly-by-category view, the period comparison, or the CSV export —
ever contains a record (or category key) equal to `"Home"`. -/
theorem no_home_in_derived_views (raw : List Expense) (lo hi : Int)
    (C P : List String) (p1lo p1hi p2lo p2hi : Int) (n : Nat) :
    (∀ r ∈ get_data raw, r.categoryName ≠ "Home") ∧
    (∀ r ∈ dfFiltered (get_data raw) lo hi C P, r.categoryName ≠ "Home") ∧
    (∀ e ∈ category_totals (dfFiltered (get_data raw) lo hi C P), e.1 ≠ "Home") ∧
    (∀ r ∈ top_expenses (dfFiltered (get_data raw) lo hi C P) n,
      r.categoryName ≠ "Home") ∧
    (∀ e ∈ (monthly_view (initTable (dfFiltered (get_data raw) lo hi C P))).2,
      e.2.1 ≠ "Home") ∧
    (∀ e ∈ comparison (get_data raw) p1lo p1hi p2lo p2hi, e.1 ≠ "Home") ∧
    (∀ s ∈ convert_df (dfFiltered (get_data raw) lo hi C P),
      ∃ r ∈ dfFiltered (get_data raw) lo hi C P,
        s = csvLine r ∧ r.categoryName ≠ "Home") := by
  have hbase : ∀ r ∈ get_data raw, r.categoryName ≠ "Home" := by
    intro r hr
    have h2 := (List.mem_filter.mp hr).2
    simpa using h2
  have hfil : ∀ r ∈ dfFiltered (get_data raw) lo hi C P, r.categoryName ≠ "Home" :=
    fun r hr => hbase r (List.mem_filter.mp hr).1
  refine ⟨hbase, hfil, ?_, ?_, ?_, ?_, ?_⟩
  · intro e he
    have he' : e ∈ groupSum strLe (·.categoryName) (dfFiltered (get_data raw) lo hi C P) :=
      (mem_sortLe _ _ e).mp he
    rcases mem_groupSum_fst he' with ⟨r, hr, hre⟩
    rw [← hre]
    exact hfil r hr
  · intro r hr
    have hr' : r ∈ sortLe (fun a b : Expense => decide (b.amount ≤ a.amount))
        (dfFiltered (get_data raw) lo hi C P) := List.mem_of_mem_take hr
    exact hfil r ((mem_sortLe _ _ r).mp hr')
  · intro e he
    simp only [monthly_view, groupMonthCat, initTable, List.mem_map] at he
    rcases he with ⟨k, hk, rfl⟩
    rcases (mem_keysOf monthCatLe _ _ k).mp hk with ⟨r, hr, hrk⟩
    have : r.categoryName = k.2 := by rw [← hrk]
    rw [← this]
    exact hfil r hr
  · intro e he
    simp only [comparison, List.mem_map] at he
    rcases he with ⟨a, ha, rfl⟩
    have ha' := (List.mem_dedup.mp ((mem_sortLe strLe _ a).mp ha))
    rw [List.mem_append, groupSum_keys, groupSum_keys] at ha'
    rcases ha' with h | h
    · rcases (mem_keysOf strLe _ _ a).mp h with ⟨r, hr, hra⟩
      rw [← hra]
      exact hbase r (List.mem_filter.mp hr).1
    · rcases (mem_keysOf strLe _ _ a).mp h with ⟨r, hr, hra⟩
      rw [← hra]
      exact hbase r (List.mem_filter.mp hr).1
  · intro s hs
    rcases List.mem_map.mp hs with ⟨r, hr, rfl⟩
    exact ⟨r, hr, rfl, hfil r hr⟩

-- ### The temporal views mutate the shared frame, but not its rows

/-- Counterexample to **C8 as stated**: computing the monthly view does
*not* leave the filtered table unchanged — line 154 assigns the derived
`month` column in place, so the frame object differs afterwards. -/
theorem monthly_view_mutates_cex : (monthly_view exDash).1 ≠ exDash := by
  decide

/-- **C8 (amended).**  The monthly and day-of-week views mutate the shared
`df_filtered` frame by adding the derived `month` / `day_of_week` columns in
place, but they leave the frame's *rows* (and original columns) unchanged,
so every subsequently computed view — Top-N, top payees, the category
breakdown — is unaffected. -/
theorem temporal_views_preserve_rows (t : DashTable) (n : Nat) :
    ((monthly_view t).1).rows = t.rows ∧
    ((dow_view t).1).rows = t.rows ∧
    ((dow_view (monthly_view t).1).1).rows = t.rows ∧
    top_expenses ((dow_view (monthly_view t).1).1).rows n = top_expenses t.rows n ∧
    top_payees ((dow_view (monthly_view t).1).1).rows = top_payees t.rows ∧
    category_totals ((dow_view (monthly_view t).1).1).rows = category_totals t.rows :=
  ⟨rfl, rfl, rfl, rfl, rfl, rfl⟩

-- ### Identity resolution halts on absent or malformed user ids

/-- **C9.**  If the `user_id` query parameter is absent, or present but not
a well-formed 24-character hex `ObjectId`, the script shows a user-visible
error and halts before any data fetch: the outcome is an `errorHalt` and is
independent of the fetch function (no fetch is performed, no partial page
is rendered).  (When absent, the truthy default `[None]` slips past the
`if not user_id` guard and `ObjectId([None])` raises, so the error shown is
the invalid-format one — still a user-visible error before any fetch.) -/
theorem user_id_validation (param : Option String)
    (fetch fetch' : String → List Expense)
    (h : param = none ∨ ∀ s, param = some s → isValidObjectId s = false) :
    (∃ msg, run_app param fetch = PageResult.errorHalt msg) ∧
    run_app param fetch = run_app param fetch' := by
  cases param with
  | none => exact ⟨⟨"Invalid user ID format.", rfl⟩, rfl⟩
  | some s =>
    rcases h with h | h
    · exact Option.noConfusion h
    · have hbad := h s rfl
      by_cases hemp : s.isEmpty = true
      · simp only [run_app, resolve_user_id, hemp, if_pos]
        exact ⟨⟨_, rfl⟩, trivial⟩
      · simp only [run_app, resolve_user_id, hemp, hbad, if_neg, Bool.false_eq_true,
          not_false_eq_true]
        exact ⟨⟨_, rfl⟩, trivial⟩

/-- Witness for `user_id_validation`: an absent `user_id` parameter halts
with an error, regardless of what a fetch would have returned. -/
theorem user_id_validation_witness :
    (∃ msg, run_app none (fun _ => []) = PageResult.errorHalt msg) ∧
    run_app none (fun _ => []) = run_app none (fun _ => ex1) :=
  user_id_validation none (fun _ => []) (fun _ => ex1) (Or.inl rfl)

-- ### The budget ratio is computed only under the positivity guard

/-- **C10.**  The budget view divides by the budget amount only under the
`budget_amount > 0` guard: when the amount is non-positive (in particular
the default `0`) nothing is rendered (`none`), a rendered view implies the
guard held, and under the guard the reported ratio genuinely satisfies
`ratio * budget = spent * 100` — the division is by a non-zero number. -/
theorem budget_view_guard (dfF : List Expense) (cat : String) (b : Rat) :
    (b ≤ 0 → budget_view dfF cat b = none) ∧
    (budget_view dfF cat b ≠ none → 0 < b) ∧
    (0 < b → ∃ capped ratio spent, budget_view dfF cat b = some (capped, ratio, spent) ∧
      ratio * b = (spent : Rat) * 100) := by
  refine ⟨?_, ?_, ?_⟩
  · intro hb
    rw [budget_view, if_neg (not_lt.mpr hb)]
  · intro hne
    by_contra hb
    exact hne (by rw [budget_view, if_neg hb])
  · intro hb
    refine ⟨min ((sumAmount (dfF.filter (fun r => r.categoryName == cat)) : Rat) / b * 100) 100,
      (sumAmount (dfF.filter (fun r => r.categoryName == cat)) : Rat) / b * 100,
      sumAmount (dfF.filter (fun r => r.categoryName == cat)), ?_, ?_⟩
    · rw [budget_view, if_pos hb]
    · have hb' : b ≠ 0 := ne_of_gt hb
      field_simp

/-- Witness for `budget_view_guard`: on `ex1` the zero (default) budget
renders nothing, and a budget of `2` yields a rendered ratio satisfying the
division identity. -/
theorem budget_view_guard_witness :
    budget_view ex1 "Food" 0 = none ∧
    ∃ capped ratio spent, budget_view ex1 "Food" 2 = some (capped, ratio, spent) ∧
      ratio * 2 = (spent : Rat) * 100 :=
  ⟨(budget_view_guard ex1 "Food" 0).1 le_rfl,
   (budget_view_guard ex1 "Food" 2).2.2 (by norm_num)⟩
